import Mathlib

/-!
# Verification of the syzygy ASan `StackCaptureCache`

A shallow embedding of `syzygy/agent/asan/stack_capture_cache.h`: a
deduplicating, reference-counting cache of call-stack traces backed by a
bump-allocated page chain with per-frame-count intrusive free lists.

Only the class header is present in the repository sources; the method
bodies (`SaveStackTrace`, `ReleaseStackTrace`, `GetStackCapture`,
`CachePage::GetNextStackCapture`, `CachePage::ReturnStackCapture`,
`StackCapturePointerIsValid`) and the `common::StackCapture` record type
are not.  Definitions for those are modelled from the specification's
functional description (sections 3, 4.1-4.4 of the design document); each
such definition is marked `Modelled from the spec:`.  Constants and inline
member functions that do appear in the header are translated directly.

The embedding is sequential: the specification's locks serialize every
operation, so the cache's observable behaviour is that of the sequential
state machine below, with each public operation one atomic step.
-/

namespace StackCaptureCache

/-- The size of a page of stack captures, in bytes
(`kCachePageSize = 1024 * 1024` in the header). -/
def kCachePageSize : Nat := 1024 * 1024

/-- Size of a pointer on the (32-bit Windows) target, in bytes. -/
def kPointerSize : Nat := 4

/-- Size of `size_t` on the target, in bytes. -/
def kSizeTSize : Nat := 4

/-- Usable data bytes of a `CachePage`:
`kDataSize = kCachePageSize - sizeof(CachePage*) - sizeof(size_t)`
(header, computing the space left after the `next_page_` link and the
`bytes_used_` counter). -/
def kDataSize : Nat := kCachePageSize - kPointerSize - kSizeTSize

/-- The default number of known-stack shards
(`kKnownStacksSharding = 16` in the header). -/
def kKnownStacksSharding : Nat := 16

/-- Modelled from the spec: `common::StackCapture::kMaxNumFrames` (the
declaration lives in `common/stack_capture.h`, which is not in the
sources); the deployment-wide maximum frame capacity of a record. -/
def kMaxNumFrames : Nat := 62

/-- Modelled from the spec: the saturation sentinel of the reference
counter ("it saturates at a maximum sentinel value"); the maximum value
representable in the counter field of `common::StackCapture`. -/
def kMaxRefCount : Nat := 4294967295

/-- Modelled from the spec: the fixed per-record overhead of a
`common::StackCapture` (identity hash, frame count, reference count)
preceding the frame array; a record for `n` frames occupies this many
bytes plus `n` pointers. -/
def kStackCaptureFixedSize : Nat := 20

/-- Modelled from the spec: the storage footprint of a stack capture
record sized for `numFrames` frames ("a bump allocation sized for
`frame_count` frames plus fixed overhead"). -/
def stackCaptureSize (numFrames : Nat) : Nat :=
  kStackCaptureFixedSize + numFrames * kPointerSize

/-- A `common::StackCapture` as the cache sees it: the identity hash used
as the dedup key (`absolute_stack_id`), the captured frames, and the
saturating reference count.  Candidates handed to `SaveStackTrace` use the
same type (their `ref_count` is ignored). -/
structure StackCapture where
  absolute_stack_id : Nat
  frames : List Nat
  ref_count : Nat
deriving DecidableEq

/-- The address of a record inside the cache's page chain: the page's
stable identity (allocation serial number) paired with the byte offset of
the record inside that page's data area. -/
abbrev Addr := Nat × Nat

/-- `StackCaptureCache::CachePage`: a fixed-size block carved by a
forward-only bump allocator.  `pageId` is model bookkeeping giving the
page a stable identity in the chain; `bytes_used` is the header's
`bytes_used_` member; `data` gives the byte contents of `data_`. -/
structure CachePage where
  pageId : Nat
  bytes_used : Nat
  data : Nat → Nat

/-- `CachePage::bytes_left()` from the header:
`kDataSize - bytes_used_`. -/
def CachePage.bytes_left (page : CachePage) : Nat :=
  kDataSize - page.bytes_used

/-- Modelled from the spec: the body of
`CachePage::GetNextStackCapture(max_num_frames, metadata_size)` is not in
the sources.  Per the header contract and spec section 4.2: bump-allocate
a record sized for `maxNumFrames` frames plus `metadataSize` trailing
metadata bytes; the metadata bytes sit immediately after the record and
are zero initialized; return `none` (null) leaving the page untouched if
the page lacks room.  The returned `Nat` is the byte offset of the new
record. -/
def CachePage.getNextStackCapture (page : CachePage)
    (maxNumFrames metadataSize : Nat) : Option Nat × CachePage :=
  let size := stackCaptureSize maxNumFrames + metadataSize
  if page.bytes_left < size then (none, page)
  else
    (some page.bytes_used,
      { page with
          bytes_used := page.bytes_used + size,
          data := fun i =>
            if page.bytes_used + stackCaptureSize maxNumFrames ≤ i ∧
                i < page.bytes_used + size then 0
            else page.data i })

/-- The single-argument overload of `GetNextStackCapture`; per the header
the metadata size "defaults to zero if not provided". -/
def CachePage.getNextStackCapture1 (page : CachePage) (maxNumFrames : Nat) :
    Option Nat × CachePage :=
  page.getNextStackCapture maxNumFrames 0

/-- Modelled from the spec: the body of
`CachePage::ReturnStackCapture(stack_capture, metadata_size)` is not in
the sources.  Per the header contract and spec section 9
(bump-allocator-with-rollback): succeed exactly when the returned record
(at offset `off`, with capacity `maxNumFrames` and `metadataSize` trailing
bytes) is flush against the bump pointer, rolling `bytes_used_` back by
its size; otherwise fail and leave the page untouched. -/
def CachePage.returnStackCapture (page : CachePage)
    (off maxNumFrames metadataSize : Nat) : Bool × CachePage :=
  let size := stackCaptureSize maxNumFrames + metadataSize
  if off + size = page.bytes_used then
    (true, { page with bytes_used := page.bytes_used - size })
  else (false, page)

/-- A brand-new empty page (`CachePage::CachePage` initializes
`bytes_used_ = 0`; pages come from `VirtualAlloc`, hence zeroed data). -/
def freshPage (id : Nat) : CachePage :=
  { pageId := id, bytes_used := 0, data := fun _ => 0 }

/-! ## Association-list helpers

The shard maps (`std::unordered_map<StackId, StackCapture*>`) and the
model's record heap are embedded as association lists with first-match
lookup. -/

/-- First-match lookup in an association list. -/
def assocFind {κ α : Type} [DecidableEq κ] (k : κ) :
    List (κ × α) → Option α
  | [] => none
  | (k', v) :: rest => if k' = k then some v else assocFind k rest

/-- Remove every entry with the given key. -/
def assocErase {κ α : Type} [DecidableEq κ] (k : κ) :
    List (κ × α) → List (κ × α)
  | [] => []
  | (k', v) :: rest =>
      if k' = k then assocErase k rest else (k', v) :: assocErase k rest

/-- Apply `f` to the value of every entry with the given key. -/
def assocUpdate {κ α : Type} [DecidableEq κ] (k : κ) (f : α → α) :
    List (κ × α) → List (κ × α)
  | [] => []
  | (k', v) :: rest =>
      if k' = k then (k', f v) :: assocUpdate k f rest
      else (k', v) :: assocUpdate k f rest

/-! ## Cache state -/

/-- `StackCaptureCache::Statistics` from the header: the seven aggregate
counters plus the three frame-level totals. -/
structure Statistics where
  cached : Nat
  size : Nat
  saturated : Nat
  unreferenced : Nat
  requested : Nat
  allocated : Nat
  references : Nat
  frames_stored : Nat
  frames_alive : Nat
  frames_dead : Nat
deriving DecidableEq

/-- The cache's state: the configuration knob `max_num_frames_`, the page
chain (`current_page_` first, with `numPagesAllocated` the next fresh page
serial), the sharded `known_stacks_` maps (indexed by shard number), the
contents of every allocated record slot (`records`, keyed by address), the
per-frame-count `reclaimed_` free lists, and `statistics_`. -/
structure CacheState where
  max_num_frames : Nat
  numPagesAllocated : Nat
  pages : List CachePage
  known_stacks : Nat → List (Nat × Addr)
  records : List (Addr × StackCapture)
  reclaimed : Nat → List Addr
  statistics : Statistics

/-- A freshly constructed cache: the constructor stores `max_num_frames_`
and allocates an initial current page. -/
def initCache (maxFrames : Nat) : CacheState :=
  { max_num_frames := maxFrames
    numPagesAllocated := 1
    pages := [freshPage 0]
    known_stacks := fun _ => []
    records := []
    reclaimed := fun _ => []
    statistics :=
      { cached := 0, size := kCachePageSize, saturated := 0,
        unreferenced := 0, requested := 0, allocated := 0, references := 0,
        frames_stored := 0, frames_alive := 0, frames_dead := 0 } }

/-- `StackCaptureCache::set_max_num_frames` (inline in the header): plain
assignment to `max_num_frames_`, with no guard of any kind. -/
def set_max_num_frames (s : CacheState) (n : Nat) : CacheState :=
  { s with max_num_frames := n }

/-- Modelled from the spec: a saturating reference-count increment
("increment the stored record's reference count (saturating)"). -/
def satAddRef (rc : Nat) : Nat :=
  if rc = kMaxRefCount then rc else rc + 1

/-- `Push` on the intrusive free lists (spec section 4.3): make the record
the new head of its frame-count class.  The intrusive link (first frame
slot) is modelled by the list structure itself, as the spec's design note
for languages with richer types suggests. -/
def reclaimedPush (recl : Nat → List Addr) (k : Nat) (a : Addr) :
    Nat → List Addr :=
  fun j => if j = k then a :: recl k else recl j

/-- `Pop` on the intrusive free lists (spec section 4.3): take the head of
the class if there is one. -/
def reclaimedPop (recl : Nat → List Addr) (k : Nat) :
    Option Addr × (Nat → List Addr) :=
  match recl k with
  | [] => (none, recl)
  | a :: rest => (some a, fun j => if j = k then rest else recl j)

/-- Modelled from the spec: the body of
`StackCaptureCache::GetStackCapture(num_frames)` is not in the sources.
Per spec section 4.2: pop the free list of the exact frame-count class
(reclaiming its dead frames from `frames_dead`); otherwise bump-allocate
from the current page; if the current page lacks room, chain a brand-new
page in front (its size notified via `statistics.size`) and retry. -/
def getStackCapture (s : CacheState) (num_frames : Nat) :
    Option (Addr × CacheState) :=
  match reclaimedPop s.reclaimed num_frames with
  | (some addr, recl') =>
      some (addr,
        { s with
            reclaimed := recl',
            statistics :=
              { s.statistics with
                  frames_dead := s.statistics.frames_dead - num_frames } })
  | (none, _) =>
    match s.pages with
    | [] => none
    | page :: rest =>
      match page.getNextStackCapture1 num_frames with
      | (some off, page') =>
          some ((page.pageId, off), { s with pages := page' :: rest })
      | (none, _) =>
          match (freshPage s.numPagesAllocated).getNextStackCapture1
              num_frames with
          | (some off, page') =>
              some ((s.numPagesAllocated, off),
                { s with
                    pages := page' :: page :: rest,
                    numPagesAllocated := s.numPagesAllocated + 1,
                    statistics :=
                      { s.statistics with
                          size := s.statistics.size + kCachePageSize } })
          | (none, _) => none

/-- Modelled from the spec: the body of
`StackCaptureCache::SaveStackTrace` is not in the sources.  Per the header
contract and spec section 4.1: route the candidate's `absolute_stack_id`
to shard `id mod kKnownStacksSharding`; on hit, bump the stored record's
reference count (saturating) and return its pointer, counting the request;
on miss, acquire storage via `getStackCapture`, copy the candidate in with
reference count 1, insert into the shard map, and count the allocation.
Returns `none` only when page allocation fails (resource exhaustion). -/
def saveStackTrace (s : CacheState) (c : StackCapture) :
    Option Addr × CacheState :=
  match assocFind c.absolute_stack_id
      (s.known_stacks (c.absolute_stack_id % kKnownStacksSharding)) with
  | some addr =>
      (some addr,
        { s with
            records := assocUpdate addr
              (fun r => { r with ref_count := satAddRef r.ref_count })
              s.records,
            statistics :=
              { s.statistics with
                  requested := s.statistics.requested + 1,
                  references := s.statistics.references + 1,
                  frames_stored :=
                    s.statistics.frames_stored + c.frames.length } })
  | none =>
    match getStackCapture s c.frames.length with
    | none => (none, s)
    | some (addr, s1) =>
        (some addr,
          { s1 with
              records :=
                (addr,
                  { absolute_stack_id := c.absolute_stack_id,
                    frames := c.frames, ref_count := 1 }) ::
                  assocErase addr s1.records,
              known_stacks := fun j =>
                if j = c.absolute_stack_id % kKnownStacksSharding then
                  (c.absolute_stack_id, addr) :: s1.known_stacks j
                else s1.known_stacks j,
              statistics :=
                { s1.statistics with
                    cached := s1.statistics.cached + 1,
                    requested := s1.statistics.requested + 1,
                    allocated := s1.statistics.allocated + 1,
                    references := s1.statistics.references + 1,
                    frames_stored :=
                      s1.statistics.frames_stored + c.frames.length,
                    frames_alive :=
                      s1.statistics.frames_alive + c.frames.length } })

/-- Modelled from the spec: the body of
`StackCaptureCache::StackCapturePointerIsValid` is not in the sources.
Per spec section 4.4: walk the page chain; the pointer is valid when it
falls within some page's data region, aligned to a record boundary, with
room for a record of some valid frame count. -/
def stackCapturePointerIsValid (s : CacheState) (p : Addr) : Bool :=
  s.pages.any fun page =>
    page.pageId == p.1 && p.2 % kPointerSize == 0 &&
      decide (p.2 + stackCaptureSize 0 ≤ kDataSize)

/-- Modelled from the spec: the body of
`StackCaptureCache::ReleaseStackTrace` is not in the sources.  Per the
header contract and spec section 4.1: if the pointer fails provenance
validation, log and do nothing; otherwise decrement the record's
reference count — a no-op if the count is saturated (the record is
immortal) — and, when the count reaches zero, remove the record from its
shard map and push its storage onto the free list of its frame-count
class, moving its frames from the alive to the dead totals. -/
def releaseStackTrace (s : CacheState) (p : Addr) : CacheState :=
  if stackCapturePointerIsValid s p = false then s
  else
    match assocFind p s.records with
    | none => s
    | some r =>
      if r.ref_count = kMaxRefCount then s
      else if r.ref_count - 1 = 0 then
        { s with
            records := assocUpdate p (fun r0 => { r0 with ref_count := 0 })
              s.records,
            known_stacks := fun j =>
              if j = r.absolute_stack_id % kKnownStacksSharding then
                assocErase r.absolute_stack_id (s.known_stacks j)
              else s.known_stacks j,
            reclaimed := reclaimedPush s.reclaimed r.frames.length p,
            statistics :=
              { s.statistics with
                  cached := s.statistics.cached - 1,
                  unreferenced := s.statistics.unreferenced + 1,
                  references := s.statistics.references - 1,
                  frames_alive :=
                    s.statistics.frames_alive - r.frames.length,
                  frames_dead :=
                    s.statistics.frames_dead + r.frames.length } }
      else
        { s with
            records := assocUpdate p
              (fun r0 => { r0 with ref_count := r.ref_count - 1 })
              s.records,
            statistics :=
              { s.statistics with
                  references := s.statistics.references - 1 } }

/-- A caller-visible cache operation: intern a candidate trace or release
a pointer. -/
inductive CacheOp where
  | save (c : StackCapture)
  | release (p : Addr)

/-- One atomic step of the cache. -/
def stepOp (s : CacheState) : CacheOp → CacheState
  | .save c => (saveStackTrace s c).2
  | .release p => releaseStackTrace s p

/-- Run a finite sequence of intern/release operations. -/
def runOps (s : CacheState) (ops : List CacheOp) : CacheState :=
  ops.foldl stepOp s

/-- The bump-allocation history of a page: the (offset, size) pairs of the
allocations, most recent first, that produced the given `bytes_used`
value.  Every allocation size is positive, as every record carries at
least its fixed overhead.  This is the specification-side notion of "the
most recently allocated stack capture" against which
`ReturnStackCapture`'s pointer comparison is judged. -/
inductive BumpHistory : Nat → List (Nat × Nat) → Prop where
  | nil : BumpHistory 0 []
  | push (used sz : Nat) (l : List (Nat × Nat)) (h : BumpHistory used l)
      (hsz : 0 < sz) : BumpHistory (used + sz) ((used, sz) :: l)

/-- The address denotes a record slot inside the allocated region of some
page of the chain: the page exists, the offset is record-aligned, and a
record of the given size fits below the page's bump pointer. -/
def AddrInPages (pages : List CachePage) (a : Addr) (sz : Nat) : Prop :=
  ∃ pg ∈ pages, pg.pageId = a.1 ∧ a.2 % kPointerSize = 0 ∧
    a.2 + sz ≤ pg.bytes_used

/-- Page-chain growth: every page persists (same identity) and its bump
pointer only moves forward. -/
def PagesExtend (P Q : List CachePage) : Prop :=
  ∀ pg ∈ P, ∃ pg' ∈ Q, pg'.pageId = pg.pageId ∧
    pg.bytes_used ≤ pg'.bytes_used

/-- The cache's structural invariant: a current page exists; page serial
numbers are below the allocation counter and pairwise distinct; every
page's bump pointer respects the capacity and record alignment; every
tracked record and every free-list entry denotes a properly sized slot in
the chain; and every shard-map entry points at a tracked record. -/
structure WF (s : CacheState) : Prop where
  pages_ne : s.pages ≠ []
  pages_id_lt : ∀ pg ∈ s.pages, pg.pageId < s.numPagesAllocated
  pages_nodup : (s.pages.map CachePage.pageId).Nodup
  pages_used_le : ∀ pg ∈ s.pages, pg.bytes_used ≤ kDataSize
  pages_used_mod : ∀ pg ∈ s.pages, pg.bytes_used % kPointerSize = 0
  records_ok : ∀ e ∈ s.records,
    AddrInPages s.pages e.1 (stackCaptureSize e.2.frames.length)
  known_ok : ∀ j, ∀ e ∈ s.known_stacks j,
    ∃ r, assocFind e.2 s.records = some r
  reclaimed_ok : ∀ k, ∀ a ∈ s.reclaimed k,
    AddrInPages s.pages a (stackCaptureSize k)

/-- A small well-formed cache state holding a single 3-frame record whose
reference count sits at the saturation sentinel. -/
def saturatedState : CacheState :=
  { max_num_frames := 62
    numPagesAllocated := 1
    pages := [⟨0, 32, fun _ => 0⟩]
    known_stacks := fun j => if j = 1 then [(17, ((0, 0) : Addr))] else []
    records := [(((0, 0) : Addr), ⟨17, [1, 2, 3], kMaxRefCount⟩)]
    reclaimed := fun _ => []
    statistics := ⟨1, kCachePageSize, 1, 0, 1, 1, 1, 3, 3, 0⟩ }

/-! ## Basic lemmas -/

theorem stackCaptureSize_pos (n : Nat) : 0 < stackCaptureSize n := by
  simp [stackCaptureSize, kStackCaptureFixedSize]

theorem stackCaptureSize_mod (n : Nat) :
    stackCaptureSize n % kPointerSize = 0 := by
  simp [stackCaptureSize, kStackCaptureFixedSize, kPointerSize]

theorem assocFind_mem {κ α : Type} [DecidableEq κ] {k : κ} {v : α}
    {l : List (κ × α)} (h : assocFind k l = some v) : (k, v) ∈ l := by
  induction l with
  | nil => simp [assocFind] at h
  | cons hd rest ih =>
    obtain ⟨k', v'⟩ := hd
    simp only [assocFind] at h
    by_cases hk : k' = k
    · rw [if_pos hk] at h
      injection h with h
      subst hk; subst h
      exact List.mem_cons_self _ _
    · rw [if_neg hk] at h
      exact List.mem_cons_of_mem _ (ih h)

theorem mem_assocErase {κ α : Type} [DecidableEq κ] {k : κ}
    {e : κ × α} {l : List (κ × α)} (h : e ∈ assocErase k l) : e ∈ l := by
  induction l with
  | nil => simp [assocErase] at h
  | cons hd rest ih =>
    obtain ⟨k', v'⟩ := hd
    simp only [assocErase] at h
    by_cases hk : k' = k
    · rw [if_pos hk] at h
      exact List.mem_cons_of_mem _ (ih h)
    · rw [if_neg hk] at h
      rcases List.mem_cons.mp h with h | h
      · subst h
        exact List.mem_cons_self _ _
      · exact List.mem_cons_of_mem _ (ih h)

theorem assocFind_assocErase_ne {κ α : Type} [DecidableEq κ] {k k' : κ}
    (hk : k ≠ k') (l : List (κ × α)) :
    assocFind k (assocErase k' l) = assocFind k l := by
  induction l with
  | nil => simp [assocErase]
  | cons hd rest ih =>
    obtain ⟨k0, v0⟩ := hd
    simp only [assocErase]
    by_cases h0 : k0 = k'
    · have h1 : ¬ k0 = k := fun h => hk (h ▸ h0)
      rw [if_pos h0, ih]
      simp only [assocFind]
      rw [if_neg h1]
    · rw [if_neg h0]
      simp only [assocFind]
      by_cases h1 : k0 = k
      · rw [if_pos h1, if_pos h1]
      · rw [if_neg h1, if_neg h1, ih]

theorem mem_assocUpdate {κ α : Type} [DecidableEq κ] {k : κ} {f : α → α}
    {e : κ × α} {l : List (κ × α)} (h : e ∈ assocUpdate k f l) :
    e ∈ l ∨ ∃ v, (k, v) ∈ l ∧ e = (k, f v) := by
  induction l with
  | nil => simp [assocUpdate] at h
  | cons hd rest ih =>
    obtain ⟨k', v'⟩ := hd
    simp only [assocUpdate] at h
    by_cases hk : k' = k
    · rw [if_pos hk] at h
      rcases List.mem_cons.mp h with h2 | h2
      · subst hk
        exact Or.inr ⟨v', List.mem_cons_self _ _, h2⟩
      · rcases ih h2 with h' | ⟨v, hv, he⟩
        · exact Or.inl (List.mem_cons_of_mem _ h')
        · exact Or.inr ⟨v, List.mem_cons_of_mem _ hv, he⟩
    · rw [if_neg hk] at h
      rcases List.mem_cons.mp h with h2 | h2
      · subst h2
        exact Or.inl (List.mem_cons_self _ _)
      · rcases ih h2 with h' | ⟨v, hv, he⟩
        · exact Or.inl (List.mem_cons_of_mem _ h')
        · exact Or.inr ⟨v, List.mem_cons_of_mem _ hv, he⟩

theorem assocFind_assocUpdate_self {κ α : Type} [DecidableEq κ] (k : κ)
    (f : α → α) (l : List (κ × α)) :
    assocFind k (assocUpdate k f l) = (assocFind k l).map f := by
  induction l with
  | nil => simp [assocUpdate, assocFind]
  | cons hd rest ih =>
    obtain ⟨k', v'⟩ := hd
    simp only [assocUpdate]
    by_cases hk : k' = k
    · rw [if_pos hk]
      simp only [assocFind]
      rw [if_pos hk, if_pos hk]
      rfl
    · rw [if_neg hk]
      simp only [assocFind]
      rw [if_neg hk, if_neg hk, ih]

theorem assocFind_assocUpdate_ne {κ α : Type} [DecidableEq κ] {k k' : κ}
    (hk : k ≠ k') (f : α → α) (l : List (κ × α)) :
    assocFind k (assocUpdate k' f l) = assocFind k l := by
  induction l with
  | nil => simp [assocUpdate, assocFind]
  | cons hd rest ih =>
    obtain ⟨k0, v0⟩ := hd
    simp only [assocUpdate]
    by_cases h0 : k0 = k'
    · have h1 : ¬ k0 = k := fun h => hk (h ▸ h0)
      rw [if_pos h0]
      simp only [assocFind]
      rw [if_neg h1, if_neg h1, ih]
    · rw [if_neg h0]
      simp only [assocFind]
      by_cases h1 : k0 = k
      · rw [if_pos h1, if_pos h1]
      · rw [if_neg h1, if_neg h1, ih]

theorem assocUpdate_map_fst {κ α : Type} [DecidableEq κ] (k : κ)
    (f : α → α) (l : List (κ × α)) :
    (assocUpdate k f l).map Prod.fst = l.map Prod.fst := by
  induction l with
  | nil => simp [assocUpdate]
  | cons hd rest ih =>
    obtain ⟨k', v'⟩ := hd
    simp only [assocUpdate]
    by_cases hk : k' = k
    · rw [if_pos hk]
      simp [ih]
    · rw [if_neg hk]
      simp [ih]

/-! ## Page-level properties -/

theorem BumpHistory.mem_le {used : Nat} {l : List (Nat × Nat)}
    (h : BumpHistory used l) {o s : Nat} (hm : (o, s) ∈ l) :
    o + s ≤ used := by
  induction h with
  | nil => simp at hm
  | push used sz l h hsz ih =>
    rcases List.mem_cons.mp hm with h2 | h2
    · obtain ⟨rfl, rfl⟩ := Prod.mk.injEq .. ▸ h2
      exact Nat.le_refl _
    · exact Nat.le_trans (ih h2) (Nat.le_add_right _ _)

/-- **C7.** For every `CachePage`, `bytes_used` never exceeds the page's
data capacity `kDataSize`: `GetNextStackCapture` preserves the bound,
returns null exactly when the page lacks room for the requested
allocation (leaving `bytes_used` unchanged in that case), and on a
brand-new empty page a bump allocation of any single record that fits in
an empty page succeeds (at offset 0), so the retry after chaining a fresh
page succeeds. -/
theorem cachePage_bump_alloc_spec (page : CachePage) (n m : Nat)
    (hWF : page.bytes_used ≤ kDataSize) :
    (page.getNextStackCapture n m).2.bytes_used ≤ kDataSize ∧
    ((page.getNextStackCapture n m).1 = none ↔
      page.bytes_left < stackCaptureSize n + m) ∧
    ((page.getNextStackCapture n m).1 = none →
      (page.getNextStackCapture n m).2 = page) ∧
    (page.bytes_used = 0 → stackCaptureSize n + m ≤ kDataSize →
      (page.getNextStackCapture n m).1 = some 0) := by
  by_cases h : page.bytes_left < stackCaptureSize n + m
  · refine ⟨?_, ?_, ?_, ?_⟩
    · simpa [CachePage.getNextStackCapture, h] using hWF
    · simp [CachePage.getNextStackCapture, h]
    · simp [CachePage.getNextStackCapture, h]
    · intro h0 hfit
      rw [CachePage.bytes_left, h0, Nat.sub_zero] at h
      omega
  · have hroom : page.bytes_used + (stackCaptureSize n + m) ≤ kDataSize := by
      rw [CachePage.bytes_left] at h
      omega
    refine ⟨?_, ?_, ?_, ?_⟩
    · simpa [CachePage.getNextStackCapture, h] using hroom
    · simp [CachePage.getNextStackCapture, h]
    · simp [CachePage.getNextStackCapture, h]
    · intro h0 hfit
      simp [CachePage.getNextStackCapture, h, h0]

/-- Closed witness for `cachePage_bump_alloc_spec` at a fresh page with a
3-frame record. -/
theorem cachePage_bump_alloc_spec_witness :
    (freshPage 0).bytes_used ≤ kDataSize ∧
    (((freshPage 0).getNextStackCapture 3 0).2.bytes_used ≤ kDataSize ∧
    (((freshPage 0).getNextStackCapture 3 0).1 = none ↔
      (freshPage 0).bytes_left < stackCaptureSize 3 + 0) ∧
    (((freshPage 0).getNextStackCapture 3 0).1 = none →
      ((freshPage 0).getNextStackCapture 3 0).2 = freshPage 0) ∧
    ((freshPage 0).bytes_used = 0 → stackCaptureSize 3 + 0 ≤ kDataSize →
      ((freshPage 0).getNextStackCapture 3 0).1 = some 0)) :=
  ⟨by decide, cachePage_bump_alloc_spec (freshPage 0) 3 0 (by decide)⟩

/-- **C8.** `CachePage::ReturnStackCapture` succeeds if and only if the
provided stack capture (with its metadata size) is the most recently
allocated one from that page; on success `bytes_used` is rolled back to
its value before that allocation (the record's own offset), and on
failure the page is unchanged. -/
theorem returnStackCapture_rollback_spec (page : CachePage)
    (allocs : List (Nat × Nat)) (off n m : Nat)
    (hist : BumpHistory page.bytes_used allocs)
    (hmem : (off, stackCaptureSize n + m) ∈ allocs) :
    ((page.returnStackCapture off n m).1 = true ↔
      allocs.head? = some (off, stackCaptureSize n + m)) ∧
    ((page.returnStackCapture off n m).1 = true →
      (page.returnStackCapture off n m).2.bytes_used = off) ∧
    ((page.returnStackCapture off n m).1 = false →
      (page.returnStackCapture off n m).2 = page) := by
  generalize hb : page.bytes_used = b at hist
  cases hist with
  | nil => simp at hmem
  | push used sz l htail hsz =>
    rcases List.mem_cons.mp hmem with h2 | h2
    · obtain ⟨rfl, rfl⟩ := Prod.mk.injEq .. ▸ h2
      have hcond : off + (stackCaptureSize n + m) = page.bytes_used := by
        omega
      refine ⟨?_, ?_, ?_⟩
      · simp [CachePage.returnStackCapture, hcond]
      · intro _
        simp [CachePage.returnStackCapture, hcond]
        omega
      · intro hfalse
        simp [CachePage.returnStackCapture, hcond] at hfalse
    · have hle : off + (stackCaptureSize n + m) ≤ used := htail.mem_le h2
      have hcond : ¬ (off + (stackCaptureSize n + m) = page.bytes_used) := by
        omega
      refine ⟨?_, ?_, ?_⟩
      · simp [CachePage.returnStackCapture, hcond]
        intro hhd
        omega
      · intro htrue
        simp [CachePage.returnStackCapture, hcond] at htrue
      · intro _
        simp [CachePage.returnStackCapture, hcond]

/-- Closed witness for `returnStackCapture_rollback_spec`: a page holding
two zero-frame records (at offsets 0 and 32, the second with 12 metadata
bytes), returning the most recent one. -/
theorem returnStackCapture_rollback_spec_witness :
    BumpHistory (CachePage.mk 0 52 (fun _ => 0)).bytes_used
      [(32, 20), (0, 32)] ∧
    ((32, stackCaptureSize 0 + 0) ∈ [(32, 20), (0, 32)]) ∧
    ((((CachePage.mk 0 52 (fun _ => 0)).returnStackCapture 32 0 0).1 = true ↔
      [(32, 20), (0, 32)].head? = some (32, stackCaptureSize 0 + 0)) ∧
    (((CachePage.mk 0 52 (fun _ => 0)).returnStackCapture 32 0 0).1 = true →
      ((CachePage.mk 0 52 (fun _ => 0)).returnStackCapture 32 0 0).2.bytes_used
        = 32) ∧
    (((CachePage.mk 0 52 (fun _ => 0)).returnStackCapture 32 0 0).1 = false →
      ((CachePage.mk 0 52 (fun _ => 0)).returnStackCapture 32 0 0).2 =
        CachePage.mk 0 52 (fun _ => 0))) :=
  ⟨BumpHistory.push 32 20 [(0, 32)]
      (BumpHistory.push 0 32 [] BumpHistory.nil (by decide)) (by decide),
   by decide,
   returnStackCapture_rollback_spec (CachePage.mk 0 52 (fun _ => 0))
     [(32, 20), (0, 32)] 32 0 0
     (BumpHistory.push 32 20 [(0, 32)]
       (BumpHistory.push 0 32 [] BumpHistory.nil (by decide)) (by decide))
     (by decide)⟩

/-- **C10.** Every successful
`CachePage::GetNextStackCapture(max_num_frames, metadata_size)` reserves
exactly `metadata_size` extra bytes immediately after the returned
record (the new `bytes_used` is the record's offset plus its size plus
`metadata_size`), those bytes read back zero, and the single-argument
overload reserves zero metadata bytes. -/
theorem metadata_reservation_spec (page : CachePage) (n m off : Nat)
    (hsucc : (page.getNextStackCapture n m).1 = some off) :
    (page.getNextStackCapture n m).2.bytes_used =
      off + stackCaptureSize n + m ∧
    (∀ i, off + stackCaptureSize n ≤ i → i < off + stackCaptureSize n + m →
      (page.getNextStackCapture n m).2.data i = 0) ∧
    page.getNextStackCapture1 n = page.getNextStackCapture n 0 := by
  by_cases h : page.bytes_left < stackCaptureSize n + m
  · simp [CachePage.getNextStackCapture, h] at hsucc
  · have hoff : page.bytes_used = off := by
      simpa [CachePage.getNextStackCapture, h] using hsucc
    refine ⟨?_, ?_, rfl⟩
    · simp [CachePage.getNextStackCapture, h, hoff]
      omega
    · intro i h1 h2
      simp only [CachePage.getNextStackCapture, h, if_false]
      rw [if_pos]
      exact ⟨by omega, by omega⟩

/-- Closed witness for `metadata_reservation_spec`: a fresh page, a
2-frame record with 8 metadata bytes. -/
theorem metadata_reservation_spec_witness :
    ((freshPage 0).getNextStackCapture 2 8).1 = some 0 ∧
    (((freshPage 0).getNextStackCapture 2 8).2.bytes_used =
      0 + stackCaptureSize 2 + 8 ∧
    (∀ i, 0 + stackCaptureSize 2 ≤ i → i < 0 + stackCaptureSize 2 + 8 →
      ((freshPage 0).getNextStackCapture 2 8).2.data i = 0) ∧
    (freshPage 0).getNextStackCapture1 2 =
      (freshPage 0).getNextStackCapture 2 0) :=
  ⟨by decide, metadata_reservation_spec (freshPage 0) 2 8 0 (by decide)⟩

/-! ## Cache-level properties -/

/-- **C3.** A release with a pointer that fails the provenance check is a
complete no-op: the whole cache state (lookup tables, free lists, pages,
reference counts, statistics) is unchanged. -/
theorem releaseStackTrace_invalid_noop (s : CacheState) (p : Addr)
    (h : stackCapturePointerIsValid s p = false) :
    releaseStackTrace s p = s := by
  simp [releaseStackTrace, h]

/-- Closed witness for `releaseStackTrace_invalid_noop`: a fresh cache and
a pointer naming a page that does not exist. -/
theorem releaseStackTrace_invalid_noop_witness :
    stackCapturePointerIsValid (initCache 62) (5, 0) = false ∧
    releaseStackTrace (initCache 62) (5, 0) = initCache 62 :=
  ⟨by decide, releaseStackTrace_invalid_noop (initCache 62) (5, 0) (by decide)⟩

/-- Storage acquisition touches only the free lists, the page chain and
the allocator-side statistics: the configuration, the shard maps, the
record heap and the dedup-relevant counters all pass through. -/
theorem getStackCapture_fields {s : CacheState} {n : Nat} {a : Addr}
    {s' : CacheState} (h : getStackCapture s n = some (a, s')) :
    s'.max_num_frames = s.max_num_frames ∧
    s'.known_stacks = s.known_stacks ∧
    s'.records = s.records ∧
    s'.statistics.cached = s.statistics.cached ∧
    s'.statistics.allocated = s.statistics.allocated ∧
    s'.statistics.requested = s.statistics.requested := by
  unfold getStackCapture at h
  cases hr : s.reclaimed n with
  | cons addr rest =>
    simp only [reclaimedPop, hr, Option.some.injEq, Prod.mk.injEq] at h
    obtain ⟨h1, h2⟩ := h
    subst h2
    exact ⟨rfl, rfl, rfl, rfl, rfl, rfl⟩
  | nil =>
    simp only [reclaimedPop, hr] at h
    cases hp : s.pages with
    | nil => simp [hp] at h
    | cons page rest =>
      simp only [hp] at h
      rcases hg : page.getNextStackCapture1 n with ⟨o, pg'⟩
      cases o with
      | some off =>
        simp only [hg, Option.some.injEq, Prod.mk.injEq] at h
        obtain ⟨h1, h2⟩ := h
        subst h2
        exact ⟨rfl, rfl, rfl, rfl, rfl, rfl⟩
      | none =>
        simp only [hg] at h
        rcases hg2 : (freshPage s.numPagesAllocated).getNextStackCapture1 n
          with ⟨o2, pg2⟩
        cases o2 with
        | some off2 =>
          simp only [hg2, Option.some.injEq, Prod.mk.injEq] at h
          obtain ⟨h1, h2⟩ := h
          subst h2
          exact ⟨rfl, rfl, rfl, rfl, rfl, rfl⟩
        | none => simp [hg2] at h

/-- `SaveStackTrace` never touches `max_num_frames_`. -/
theorem saveStackTrace_max_num_frames (s : CacheState) (c : StackCapture) :
    (saveStackTrace s c).2.max_num_frames = s.max_num_frames := by
  unfold saveStackTrace
  cases hfind : assocFind c.absolute_stack_id
      (s.known_stacks (c.absolute_stack_id % kKnownStacksSharding)) with
  | some addr => rfl
  | none =>
    cases hget : getStackCapture s c.frames.length with
    | none => rfl
    | some pr =>
      obtain ⟨addr, s1⟩ := pr
      exact (getStackCapture_fields hget).1

/-- `ReleaseStackTrace` never touches `max_num_frames_`. -/
theorem releaseStackTrace_max_num_frames (s : CacheState) (p : Addr) :
    (releaseStackTrace s p).max_num_frames = s.max_num_frames := by
  unfold releaseStackTrace
  split
  · rfl
  · split
    · rfl
    · split
      · rfl
      · split
        · rfl
        · rfl

/-- **C9 counterexample.** The claim "no operation of the cache changes
`max_num_frames` after any trace exists" is false on the code: after a
trace has been interned (the record heap is non-empty), calling the
public `set_max_num_frames` — an unguarded plain assignment in the
header — changes `max_num_frames` from 62 to 5. -/
theorem set_max_num_frames_after_trace_cex :
    (saveStackTrace (initCache 62) ⟨17, [10, 11, 12], 0⟩).2.records ≠ [] ∧
    (saveStackTrace (initCache 62) ⟨17, [10, 11, 12], 0⟩).2.max_num_frames
      = 62 ∧
    (set_max_num_frames
      (saveStackTrace (initCache 62) ⟨17, [10, 11, 12], 0⟩).2
      5).max_num_frames = 5 :=
  ⟨by decide, by decide, by decide⟩

/-- **C9 (amended).** The intern/release operations of the cache never
change `max_num_frames`: any finite sequence of `SaveStackTrace` and
`ReleaseStackTrace` calls leaves it at its initialization value.  The
separate `set_max_num_frames` setter, however, overwrites it
unconditionally whenever called — nothing in the code confines it to
initialization time (see the counterexample). -/
theorem max_num_frames_ops_invariant (s : CacheState) (ops : List CacheOp)
    (n : Nat) :
    (runOps s ops).max_num_frames = s.max_num_frames ∧
    (set_max_num_frames s n).max_num_frames = n := by
  constructor
  · induction ops generalizing s with
    | nil => rfl
    | cons op rest ih =>
      have hstep : (stepOp s op).max_num_frames = s.max_num_frames := by
        cases op with
        | save c => exact saveStackTrace_max_num_frames s c
        | release p => exact releaseStackTrace_max_num_frames s p
      calc (runOps s (op :: rest)).max_num_frames
          = (runOps (stepOp s op) rest).max_num_frames := rfl
        _ = (stepOp s op).max_num_frames := ih (stepOp s op)
        _ = s.max_num_frames := hstep
  · rfl

/-- The dedup counters move monotonically in lock step: interning bumps
`requested` always and `allocated`/`cached` exactly on a miss, and a
release can only decrease `cached`. -/
theorem statsInv_save (s : CacheState) (c : StackCapture)
    (h : s.statistics.cached ≤ s.statistics.allocated ∧
      s.statistics.allocated ≤ s.statistics.requested) :
    (saveStackTrace s c).2.statistics.cached ≤
      (saveStackTrace s c).2.statistics.allocated ∧
    (saveStackTrace s c).2.statistics.allocated ≤
      (saveStackTrace s c).2.statistics.requested := by
  unfold saveStackTrace
  cases hfind : assocFind c.absolute_stack_id
      (s.known_stacks (c.absolute_stack_id % kKnownStacksSharding)) with
  | some addr =>
    simp only
    omega
  | none =>
    cases hget : getStackCapture s c.frames.length with
    | none => exact h
    | some pr =>
      obtain ⟨addr, s1⟩ := pr
      obtain ⟨-, -, -, h4, h5, h6⟩ := getStackCapture_fields hget
      simp only
      omega

/-- A release never increases `cached` and leaves `allocated` and
`requested` alone. -/
theorem statsInv_release (s : CacheState) (p : Addr)
    (h : s.statistics.cached ≤ s.statistics.allocated ∧
      s.statistics.allocated ≤ s.statistics.requested) :
    (releaseStackTrace s p).statistics.cached ≤
      (releaseStackTrace s p).statistics.allocated ∧
    (releaseStackTrace s p).statistics.allocated ≤
      (releaseStackTrace s p).statistics.requested := by
  unfold releaseStackTrace
  by_cases hval : stackCapturePointerIsValid s p = false
  · simp only [if_pos hval]
    exact h
  · simp only [if_neg hval]
    cases hfind : assocFind p s.records with
    | none => exact h
    | some r =>
      by_cases hsat : r.ref_count = kMaxRefCount
      · simp only [if_pos hsat]
        exact h
      · simp only [if_neg hsat]
        by_cases hz : r.ref_count - 1 = 0
        · simp only [if_pos hz]
          omega
        · simp only [if_neg hz]
          exact h

/-- **C4.** After every finite sequence of intern (`SaveStackTrace`) and
release (`ReleaseStackTrace`) operations starting from a fresh cache,
`allocated ≥ cached` and `requested ≥ allocated`. -/
theorem statistics_counter_invariant (maxFrames : Nat) (ops : List CacheOp) :
    (runOps (initCache maxFrames) ops).statistics.cached ≤
      (runOps (initCache maxFrames) ops).statistics.allocated ∧
    (runOps (initCache maxFrames) ops).statistics.allocated ≤
      (runOps (initCache maxFrames) ops).statistics.requested := by
  have base : (initCache maxFrames).statistics.cached ≤
      (initCache maxFrames).statistics.allocated ∧
      (initCache maxFrames).statistics.allocated ≤
      (initCache maxFrames).statistics.requested := by
    exact ⟨Nat.le_refl _, Nat.le_refl _⟩
  revert base
  generalize initCache maxFrames = s
  induction ops generalizing s with
  | nil => exact fun h => h
  | cons op rest ih =>
    intro h
    have hstep : (stepOp s op).statistics.cached ≤
        (stepOp s op).statistics.allocated ∧
        (stepOp s op).statistics.allocated ≤
        (stepOp s op).statistics.requested := by
      cases op with
      | save c => exact statsInv_save s c h
      | release p => exact statsInv_release s p h
    exact ih (stepOp s op) hstep

/-- **C1.** When a candidate's `StackId` is already present in the cache,
`SaveStackTrace` returns the pointer to the already-stored record — no new
record is allocated (pages, the record-heap domain and the free lists are
untouched) — and increments that record's reference count (saturating).
Deduplication is keyed solely by `StackId`: any candidate with the same
`StackId`, regardless of its frame contents, gets the same pointer. -/
theorem saveStackTrace_hit_dedup (s : CacheState) (c : StackCapture)
    (a : Addr)
    (hhit : assocFind c.absolute_stack_id
      (s.known_stacks (c.absolute_stack_id % kKnownStacksSharding)) =
      some a) :
    (saveStackTrace s c).1 = some a ∧
    (saveStackTrace s c).2.pages = s.pages ∧
    (saveStackTrace s c).2.numPagesAllocated = s.numPagesAllocated ∧
    (saveStackTrace s c).2.records.map Prod.fst = s.records.map Prod.fst ∧
    (saveStackTrace s c).2.reclaimed = s.reclaimed ∧
    (∀ r, assocFind a s.records = some r →
      assocFind a (saveStackTrace s c).2.records =
        some { r with ref_count := satAddRef r.ref_count }) ∧
    (∀ c' : StackCapture, c'.absolute_stack_id = c.absolute_stack_id →
      (saveStackTrace s c').1 = some a) := by
  unfold saveStackTrace
  simp only [hhit, true_and]
  refine ⟨assocUpdate_map_fst _ _ _, ?_, ?_⟩
  · intro r hr
    rw [assocFind_assocUpdate_self, hr]
    rfl
  · intro c' hc'
    simp only [hc', hhit]

/-- Closed witness for `saveStackTrace_hit_dedup`: intern a trace, then
hit it with a candidate that has the same id but different frames. -/
theorem saveStackTrace_hit_dedup_witness :
    (assocFind (StackCapture.mk 17 [99] 0).absolute_stack_id
      ((saveStackTrace (initCache 62) ⟨17, [10, 11, 12], 0⟩).2.known_stacks
        ((StackCapture.mk 17 [99] 0).absolute_stack_id %
          kKnownStacksSharding)) = some (0, 0)) ∧
    (saveStackTrace (saveStackTrace (initCache 62) ⟨17, [10, 11, 12], 0⟩).2
      ⟨17, [99], 0⟩).1 = some (0, 0) :=
  ⟨by decide,
   (saveStackTrace_hit_dedup
     (saveStackTrace (initCache 62) ⟨17, [10, 11, 12], 0⟩).2
     ⟨17, [99], 0⟩ (0, 0) (by decide)).1⟩

/-- **C6.** The per-class free lists are LIFO — a `Pop` immediately after
a `Push` returns the pushed record, and a `Pop` on an empty class returns
nothing — and free-list reuse is exercised: after a record is released to
zero references, interning a distinct trace with the same frame count
returns that record's storage address. -/
theorem freelist_lifo_reuse (recl : Nat → List Addr) (k : Nat) (a : Addr)
    (s : CacheState) (p : Addr) (r c : StackCapture)
    (hvalid : stackCapturePointerIsValid s p = true)
    (hrec : assocFind p s.records = some r)
    (hone : r.ref_count = 1)
    (hframes : c.frames.length = r.frames.length)
    (hmiss : assocFind c.absolute_stack_id
      ((releaseStackTrace s p).known_stacks
        (c.absolute_stack_id % kKnownStacksSharding)) = none) :
    (reclaimedPop (reclaimedPush recl k a) k).1 = some a ∧
    (recl k = [] → (reclaimedPop recl k).1 = none) ∧
    (saveStackTrace (releaseStackTrace s p) c).1 = some p := by
  have hnotfalse : ¬ stackCapturePointerIsValid s p = false := by
    simp [hvalid]
  have hsat : ¬ r.ref_count = kMaxRefCount := by
    rw [hone]; decide
  have hz : r.ref_count - 1 = 0 := by rw [hone]
  have hrel : releaseStackTrace s p =
      { s with
          records := assocUpdate p (fun r0 => { r0 with ref_count := 0 })
            s.records,
          known_stacks := fun j =>
            if j = r.absolute_stack_id % kKnownStacksSharding then
              assocErase r.absolute_stack_id (s.known_stacks j)
            else s.known_stacks j,
          reclaimed := reclaimedPush s.reclaimed r.frames.length p,
          statistics :=
            { s.statistics with
                cached := s.statistics.cached - 1,
                unreferenced := s.statistics.unreferenced + 1,
                references := s.statistics.references - 1,
                frames_alive := s.statistics.frames_alive - r.frames.length,
                frames_dead :=
                  s.statistics.frames_dead + r.frames.length } } := by
    unfold releaseStackTrace
    rw [if_neg hnotfalse]
    simp only [hrec]
    rw [if_neg hsat, if_pos hz]
  refine ⟨?_, ?_, ?_⟩
  · simp [reclaimedPop, reclaimedPush]
  · intro h
    simp [reclaimedPop, h]
  · rw [hrel] at hmiss
    rw [hrel]
    unfold saveStackTrace
    simp only [hmiss]
    rw [hframes]
    unfold getStackCapture
    simp [reclaimedPop, reclaimedPush]

/-- Closed witness for `freelist_lifo_reuse`: intern a 3-frame trace,
release it to zero, and intern a distinct 3-frame trace, which lands at
the released record's address `(0, 0)`. -/
theorem freelist_lifo_reuse_witness :
    stackCapturePointerIsValid
      (saveStackTrace (initCache 62) ⟨17, [10, 11, 12], 0⟩).2 (0, 0) =
      true ∧
    assocFind ((0, 0) : Addr)
      (saveStackTrace (initCache 62) ⟨17, [10, 11, 12], 0⟩).2.records =
      some ⟨17, [10, 11, 12], 1⟩ ∧
    (StackCapture.mk 17 [10, 11, 12] 1).ref_count = 1 ∧
    (StackCapture.mk 23 [7, 8, 9] 0).frames.length =
      (StackCapture.mk 17 [10, 11, 12] 1).frames.length ∧
    assocFind (StackCapture.mk 23 [7, 8, 9] 0).absolute_stack_id
      ((releaseStackTrace
          (saveStackTrace (initCache 62) ⟨17, [10, 11, 12], 0⟩).2
          (0, 0)).known_stacks
        ((StackCapture.mk 23 [7, 8, 9] 0).absolute_stack_id %
          kKnownStacksSharding)) = none ∧
    ((reclaimedPop (reclaimedPush (fun _ => []) 5 ((9, 9) : Addr)) 5).1 =
      some (9, 9) ∧
    ((fun _ => ([] : List Addr)) 5 = [] →
      (reclaimedPop (fun _ => ([] : List Addr)) 5).1 = none) ∧
    (saveStackTrace
      (releaseStackTrace
        (saveStackTrace (initCache 62) ⟨17, [10, 11, 12], 0⟩).2 (0, 0))
      ⟨23, [7, 8, 9], 0⟩).1 = some (0, 0)) :=
  ⟨by decide, by decide, by decide, by decide, by decide,
   freelist_lifo_reuse (fun _ => []) 5 (9, 9)
     (saveStackTrace (initCache 62) ⟨17, [10, 11, 12], 0⟩).2 (0, 0)
     ⟨17, [10, 11, 12], 1⟩ ⟨23, [7, 8, 9], 0⟩
     (by decide) (by decide) (by decide) (by decide) (by decide)⟩

/-! ## The structural invariant -/

theorem kPointerSize_eq : kPointerSize = 4 := rfl

theorem stackCaptureSize_zero_le (n : Nat) :
    stackCaptureSize 0 ≤ stackCaptureSize n := by
  unfold stackCaptureSize
  exact Nat.add_le_add_left (by simp) _

theorem PagesExtend.rfl (P : List CachePage) : PagesExtend P P :=
  fun pg h => ⟨pg, h, Eq.refl _, Nat.le_refl _⟩

theorem AddrInPages.mono {P Q : List CachePage} {a : Addr} {sz : Nat}
    (hPQ : PagesExtend P Q) (h : AddrInPages P a sz) :
    AddrInPages Q a sz := by
  obtain ⟨pg, hpg, hid, hmod, hle⟩ := h
  obtain ⟨pg', hpg', hid', hle'⟩ := hPQ pg hpg
  exact ⟨pg', hpg', hid'.trans hid, hmod, hle.trans hle'⟩

theorem wf_initCache (maxFrames : Nat) : WF (initCache maxFrames) := by
  refine ⟨?_, ?_, ?_, ?_, ?_, ?_, ?_, ?_⟩
  · simp [initCache]
  · intro pg hpg
    rw [show (initCache maxFrames).pages = [freshPage 0] from rfl,
      List.mem_singleton] at hpg
    subst hpg
    exact Nat.zero_lt_one
  · simp [initCache]
  · intro pg hpg
    rw [show (initCache maxFrames).pages = [freshPage 0] from rfl,
      List.mem_singleton] at hpg
    subst hpg
    exact Nat.zero_le _
  · intro pg hpg
    rw [show (initCache maxFrames).pages = [freshPage 0] from rfl,
      List.mem_singleton] at hpg
    subst hpg
    rfl
  · intro e he
    simp [initCache] at he
  · intro j e he
    simp [initCache] at he
  · intro k a ha
    simp [initCache] at ha

/-- Any properly tracked record slot passes the provenance check. -/
theorem addrInPages_valid {s : CacheState} {a : Addr} {sz : Nat}
    (hused : ∀ pg ∈ s.pages, pg.bytes_used ≤ kDataSize)
    (hsz : stackCaptureSize 0 ≤ sz)
    (h : AddrInPages s.pages a sz) :
    stackCapturePointerIsValid s a = true := by
  obtain ⟨pg, hpg, hid, hmod, hle⟩ := h
  have h1 : a.2 + stackCaptureSize 0 ≤ kDataSize :=
    Nat.le_trans (Nat.add_le_add_left hsz _)
      (Nat.le_trans hle (hused pg hpg))
  unfold stackCapturePointerIsValid
  rw [List.any_eq_true]
  exact ⟨pg, hpg, by simp [hid, hmod, h1]⟩

/-- Unpacking a successful single-argument bump allocation. -/
theorem getNextStackCapture1_some {page : CachePage} {n off : Nat}
    {pg' : CachePage} (h : page.getNextStackCapture1 n = (some off, pg')) :
    stackCaptureSize n ≤ kDataSize - page.bytes_used ∧
    off = page.bytes_used ∧
    pg'.pageId = page.pageId ∧
    pg'.bytes_used = page.bytes_used + (stackCaptureSize n + 0) := by
  unfold CachePage.getNextStackCapture1 CachePage.getNextStackCapture at h
  by_cases hc : page.bytes_left < stackCaptureSize n + 0
  · rw [if_pos hc] at h
    exact absurd h (by simp)
  · rw [if_neg hc] at h
    rw [Prod.mk.injEq, Option.some.injEq] at h
    obtain ⟨h1, h2⟩ := h
    subst h2
    rw [CachePage.bytes_left] at hc
    exact ⟨by omega, h1.symm, Eq.refl _, Eq.refl _⟩

/-- Full characterization of a successful storage acquisition: the
invariant is preserved; the returned address is a record-aligned slot
sized for `n` frames in the (possibly grown) page chain; the shard maps
and the record heap pass through unchanged; the free lists only shrink;
and the returned address cannot collide with a tracked record slot that
is not on a free list. -/
theorem getStackCapture_spec {s : CacheState} {n : Nat} {a : Addr}
    {s' : CacheState} (hWF : WF s)
    (h : getStackCapture s n = some (a, s')) :
    WF s' ∧
    AddrInPages s'.pages a (stackCaptureSize n) ∧
    PagesExtend s.pages s'.pages ∧
    s'.known_stacks = s.known_stacks ∧
    s'.records = s.records ∧
    (∀ k q, q ∈ s'.reclaimed k → q ∈ s.reclaimed k) ∧
    (∀ p rp, assocFind p s.records = some rp →
      (∀ k, p ∉ s.reclaimed k) → a ≠ p) := by
  unfold getStackCapture at h
  cases hr : s.reclaimed n with
  | cons addr rest =>
    simp only [reclaimedPop, hr, Option.some.injEq, Prod.mk.injEq] at h
    obtain ⟨h1, h2⟩ := h
    subst h1
    subst h2
    have hmemaddr : addr ∈ s.reclaimed n := by
      rw [hr]
      exact List.mem_cons_self _ _
    have hsub : ∀ k q,
        q ∈ (fun j => if j = n then rest else s.reclaimed j) k →
        q ∈ s.reclaimed k := by
      intro k q hq
      have hq' : q ∈ if k = n then rest else s.reclaimed k := hq
      by_cases hk : k = n
      · rw [if_pos hk] at hq'
        rw [hk, hr]
        exact List.mem_cons_of_mem _ hq'
      · rwa [if_neg hk] at hq'
    refine ⟨?_, ?_, PagesExtend.rfl _, Eq.refl _, Eq.refl _, hsub, ?_⟩
    · exact
        { pages_ne := hWF.pages_ne
          pages_id_lt := hWF.pages_id_lt
          pages_nodup := hWF.pages_nodup
          pages_used_le := hWF.pages_used_le
          pages_used_mod := hWF.pages_used_mod
          records_ok := hWF.records_ok
          known_ok := hWF.known_ok
          reclaimed_ok := fun k q hq =>
            hWF.reclaimed_ok k q (hsub k q hq) }
    · exact hWF.reclaimed_ok n addr hmemaddr
    · intro p rp hfind hfree heq
      exact hfree n (heq ▸ hmemaddr)
  | nil =>
    simp only [reclaimedPop, hr] at h
    cases hp : s.pages with
    | nil => simp [hp] at h
    | cons page rest =>
      have hpagemem : page ∈ s.pages := by
        rw [hp]
        exact List.mem_cons_self _ _
      simp only [hp] at h
      rcases hg : page.getNextStackCapture1 n with ⟨o, pg'⟩
      cases o with
      | some off =>
        simp only [hg, Option.some.injEq, Prod.mk.injEq] at h
        obtain ⟨h1, h2⟩ := h
        subst h2
        obtain ⟨hroom, hoff, hpid, hpused⟩ := getNextStackCapture1_some hg
        subst h1
        subst hoff
        have hExt : PagesExtend (page :: rest) (pg' :: rest) := by
          intro pg hpg
          rcases List.mem_cons.mp hpg with h2 | h2
          · subst h2
            exact ⟨pg', List.mem_cons_self _ _, hpid, by omega⟩
          · exact ⟨pg, List.mem_cons_of_mem _ h2, Eq.refl _, Nat.le_refl _⟩
        have hExtS : PagesExtend s.pages (pg' :: rest) := by
          rw [hp]
          exact hExt
        refine ⟨?_, ?_, hExt, Eq.refl _, Eq.refl _, fun k q hq => hq, ?_⟩
        · exact
            { pages_ne := by simp
              pages_id_lt := by
                intro pg hpg
                rcases List.mem_cons.mp hpg with h2 | h2
                · subst h2
                  rw [hpid]
                  exact hWF.pages_id_lt page hpagemem
                · exact hWF.pages_id_lt pg
                    (by rw [hp]; exact List.mem_cons_of_mem _ h2)
              pages_nodup := by
                have hmap : (pg' :: rest).map CachePage.pageId =
                    s.pages.map CachePage.pageId := by
                  rw [hp]
                  simp [hpid]
                show ((pg' :: rest).map CachePage.pageId).Nodup
                rw [hmap]
                exact hWF.pages_nodup
              pages_used_le := by
                intro pg hpg
                rcases List.mem_cons.mp hpg with h2 | h2
                · subst h2
                  rw [hpused]
                  have hle := hWF.pages_used_le page hpagemem
                  omega
                · exact hWF.pages_used_le pg
                    (by rw [hp]; exact List.mem_cons_of_mem _ h2)
              pages_used_mod := by
                intro pg hpg
                rcases List.mem_cons.mp hpg with h2 | h2
                · subst h2
                  rw [hpused, kPointerSize_eq]
                  have hm1 := hWF.pages_used_mod page hpagemem
                  have hm2 := stackCaptureSize_mod n
                  rw [kPointerSize_eq] at hm1 hm2
                  omega
                · exact hWF.pages_used_mod pg
                    (by rw [hp]; exact List.mem_cons_of_mem _ h2)
              records_ok := fun e he => (hWF.records_ok e he).mono hExtS
              known_ok := hWF.known_ok
              reclaimed_ok := fun k q hq =>
                (hWF.reclaimed_ok k q hq).mono hExtS }
        · refine ⟨pg', List.mem_cons_self _ _, hpid,
            hWF.pages_used_mod page hpagemem, ?_⟩
          rw [hpused]
          omega
        · intro p rp hfind hfree heq
          obtain ⟨pg, hpg, hpid2, hmod2, hle2⟩ :=
            hWF.records_ok (p, rp) (assocFind_mem hfind)
          have hpid2' : pg.pageId = p.1 := hpid2
          have hle2' : p.2 + stackCaptureSize rp.frames.length ≤
              pg.bytes_used := hle2
          have hfst : page.pageId = p.1 := by rw [← heq]
          have hsnd : page.bytes_used = p.2 := by rw [← heq]
          have hpgeq : pg = page :=
            List.inj_on_of_nodup_map hWF.pages_nodup hpg hpagemem
              (by rw [hpid2', ← hfst])
          have hpos := stackCaptureSize_pos rp.frames.length
          rw [hpgeq] at hle2'
          omega
      | none =>
        simp only [hg] at h
        rcases hg2 : (freshPage s.numPagesAllocated).getNextStackCapture1 n
          with ⟨o2, pg2⟩
        cases o2 with
        | none => simp [hg2] at h
        | some off2 =>
          simp only [hg2, Option.some.injEq, Prod.mk.injEq] at h
          obtain ⟨h1, h2⟩ := h
          subst h2
          obtain ⟨hroom, hoff, hpid, hpused⟩ := getNextStackCapture1_some hg2
          simp only [freshPage] at hroom hoff hpid hpused
          subst h1
          subst hoff
          have hExt : PagesExtend (page :: rest) (pg2 :: page :: rest) :=
            fun pg hpg => ⟨pg, List.mem_cons_of_mem _ hpg, Eq.refl _,
              Nat.le_refl _⟩
          have hExtS : PagesExtend s.pages (pg2 :: page :: rest) := by
            rw [hp]
            exact hExt
          refine ⟨?_, ?_, hExt, Eq.refl _, Eq.refl _, fun k q hq => hq, ?_⟩
          · exact
              { pages_ne := by simp
                pages_id_lt := by
                  intro pg hpg
                  rcases List.mem_cons.mp hpg with h2 | h2
                  · subst h2
                    rw [hpid]
                    show s.numPagesAllocated < s.numPagesAllocated + 1
                    omega
                  · have hmem : pg ∈ s.pages := by rw [hp]; exact h2
                    have := hWF.pages_id_lt pg hmem
                    show pg.pageId < s.numPagesAllocated + 1
                    omega
                pages_nodup := by
                  show ((pg2 :: page :: rest).map CachePage.pageId).Nodup
                  rw [List.map_cons, List.nodup_cons]
                  constructor
                  · rw [hpid]
                    intro hmem
                    rw [List.mem_map] at hmem
                    obtain ⟨pg, hpg, hpgid⟩ := hmem
                    have hmem2 : pg ∈ s.pages := by rw [hp]; exact hpg
                    have := hWF.pages_id_lt pg hmem2
                    omega
                  · have hn := hWF.pages_nodup
                    rw [hp] at hn
                    exact hn
                pages_used_le := by
                  intro pg hpg
                  rcases List.mem_cons.mp hpg with h2 | h2
                  · subst h2
                    rw [hpused]
                    omega
                  · have hmem : pg ∈ s.pages := by rw [hp]; exact h2
                    exact hWF.pages_used_le pg hmem
                pages_used_mod := by
                  intro pg hpg
                  rcases List.mem_cons.mp hpg with h2 | h2
                  · subst h2
                    rw [hpused, kPointerSize_eq]
                    have hm2 := stackCaptureSize_mod n
                    rw [kPointerSize_eq] at hm2
                    omega
                  · have hmem : pg ∈ s.pages := by rw [hp]; exact h2
                    exact hWF.pages_used_mod pg hmem
                records_ok := fun e he => (hWF.records_ok e he).mono hExtS
                known_ok := hWF.known_ok
                reclaimed_ok := fun k q hq =>
                  (hWF.reclaimed_ok k q hq).mono hExtS }
          · refine ⟨pg2, List.mem_cons_self _ _, hpid, by rfl, ?_⟩
            rw [hpused]
            omega
          · intro p rp hfind hfree heq
            obtain ⟨pg, hpg, hpid2, -, -⟩ :=
              hWF.records_ok (p, rp) (assocFind_mem hfind)
            have hpid2' : pg.pageId = p.1 := hpid2
            have hlt := hWF.pages_id_lt pg hpg
            have hfst : s.numPagesAllocated = p.1 := by rw [← heq]
            omega

/-- Reference-count-only updates of the record heap (a cache hit, or a
release that does not reach zero) preserve the invariant; stated with
field equations so it applies to any state literal by `rfl`. -/
theorem wf_records_update (s : CacheState) (k : Addr)
    (f : StackCapture → StackCapture) (hf : ∀ v, (f v).frames = v.frames)
    (hWF : WF s) (s' : CacheState)
    (hpages : s'.pages = s.pages)
    (hnum : s'.numPagesAllocated = s.numPagesAllocated)
    (hknown : s'.known_stacks = s.known_stacks)
    (hreclaimed : s'.reclaimed = s.reclaimed)
    (hrecords : s'.records = assocUpdate k f s.records) :
    WF s' := by
  refine
    { pages_ne := by rw [hpages]; exact hWF.pages_ne
      pages_id_lt := by rw [hpages, hnum]; exact hWF.pages_id_lt
      pages_nodup := by rw [hpages]; exact hWF.pages_nodup
      pages_used_le := by rw [hpages]; exact hWF.pages_used_le
      pages_used_mod := by rw [hpages]; exact hWF.pages_used_mod
      records_ok := ?_
      known_ok := ?_
      reclaimed_ok := by
        rw [hpages, hreclaimed]
        exact hWF.reclaimed_ok }
  · intro e he
    rw [hrecords] at he
    rw [hpages]
    rcases mem_assocUpdate he with h2 | ⟨v, hv, he2⟩
    · exact hWF.records_ok e h2
    · subst he2
      have h3 := hWF.records_ok (k, v) hv
      show AddrInPages s.pages k (stackCaptureSize (f v).frames.length)
      rw [hf v]
      exact h3
  · intro j e he
    rw [hknown] at he
    rw [hrecords]
    obtain ⟨r, hr⟩ := hWF.known_ok j e he
    by_cases hcase : e.2 = k
    · rw [hcase] at hr ⊢
      rw [assocFind_assocUpdate_self, hr]
      exact ⟨f r, rfl⟩
    · rw [assocFind_assocUpdate_ne hcase]
      exact ⟨r, hr⟩

/-- A release that reaches zero references (remove from the shard map,
zero the count, push the slot on its size-class free list) preserves the
invariant. -/
theorem wf_zero_release (s : CacheState) (p : Addr) (r : StackCapture)
    (hfind : assocFind p s.records = some r) (hWF : WF s) (s' : CacheState)
    (hpages : s'.pages = s.pages)
    (hnum : s'.numPagesAllocated = s.numPagesAllocated)
    (hknown : s'.known_stacks = fun j =>
      if j = r.absolute_stack_id % kKnownStacksSharding then
        assocErase r.absolute_stack_id (s.known_stacks j)
      else s.known_stacks j)
    (hrecords : s'.records =
      assocUpdate p (fun r0 => { r0 with ref_count := 0 }) s.records)
    (hreclaimed : s'.reclaimed =
      reclaimedPush s.reclaimed r.frames.length p) :
    WF s' := by
  have hrecmem := assocFind_mem hfind
  refine
    { pages_ne := by rw [hpages]; exact hWF.pages_ne
      pages_id_lt := by rw [hpages, hnum]; exact hWF.pages_id_lt
      pages_nodup := by rw [hpages]; exact hWF.pages_nodup
      pages_used_le := by rw [hpages]; exact hWF.pages_used_le
      pages_used_mod := by rw [hpages]; exact hWF.pages_used_mod
      records_ok := ?_
      known_ok := ?_
      reclaimed_ok := ?_ }
  · intro e he
    rw [hrecords] at he
    rw [hpages]
    rcases mem_assocUpdate he with h2 | ⟨v, hv, he2⟩
    · exact hWF.records_ok e h2
    · subst he2
      have h3 := hWF.records_ok (p, v) hv
      show AddrInPages s.pages p
        (stackCaptureSize (StackCapture.mk v.absolute_stack_id v.frames
          0).frames.length)
      exact h3
  · intro j e he
    rw [hknown] at he
    rw [hrecords]
    have he2 : e ∈
        if j = r.absolute_stack_id % kKnownStacksSharding then
          assocErase r.absolute_stack_id (s.known_stacks j)
        else s.known_stacks j := he
    have hmem : e ∈ s.known_stacks j := by
      by_cases hj : j = r.absolute_stack_id % kKnownStacksSharding
      · rw [if_pos hj] at he2
        exact mem_assocErase he2
      · rwa [if_neg hj] at he2
    obtain ⟨r0, hr0⟩ := hWF.known_ok j e hmem
    by_cases hep : e.2 = p
    · rw [hep] at hr0 ⊢
      rw [assocFind_assocUpdate_self, hr0]
      exact ⟨_, rfl⟩
    · rw [assocFind_assocUpdate_ne hep]
      exact ⟨r0, hr0⟩
  · intro k a ha
    rw [hreclaimed] at ha
    rw [hpages]
    have ha2 : a ∈
        if k = r.frames.length then
          p :: s.reclaimed r.frames.length
        else s.reclaimed k := ha
    by_cases hk : k = r.frames.length
    · rw [if_pos hk] at ha2
      rcases List.mem_cons.mp ha2 with h2 | h2
      · subst h2
        rw [hk]
        exact hWF.records_ok (a, r) hrecmem
      · rw [hk]
        exact hWF.reclaimed_ok r.frames.length a h2
    · rw [if_neg hk] at ha2
      exact hWF.reclaimed_ok k a ha2

/-- A cache miss (acquire storage, write the new record, insert into the
shard map) preserves the invariant. -/
theorem wf_miss_insert (s s1 : CacheState) (c : StackCapture) (addr : Addr)
    (hget : getStackCapture s c.frames.length = some (addr, s1))
    (hWF : WF s) (s' : CacheState)
    (hpages : s'.pages = s1.pages)
    (hnum : s'.numPagesAllocated = s1.numPagesAllocated)
    (hknown : s'.known_stacks = fun j =>
      if j = c.absolute_stack_id % kKnownStacksSharding then
        (c.absolute_stack_id, addr) :: s1.known_stacks j
      else s1.known_stacks j)
    (hrecords : s'.records =
      (addr, ⟨c.absolute_stack_id, c.frames, 1⟩) ::
        assocErase addr s1.records)
    (hreclaimed : s'.reclaimed = s1.reclaimed) :
    WF s' := by
  obtain ⟨hWF1, hAddr, hExt, hknown1, hrecords1, hrecl1, hdist⟩ :=
    getStackCapture_spec hWF hget
  have hfindnew : ∀ q : Addr, (∃ r0, assocFind q s1.records = some r0) →
      ∃ r0, assocFind q
        ((addr, (⟨c.absolute_stack_id, c.frames, 1⟩ : StackCapture)) ::
          assocErase addr s1.records) = some r0 := by
    intro q hq
    by_cases hqa : q = addr
    · subst hqa
      exact ⟨⟨c.absolute_stack_id, c.frames, 1⟩, by simp [assocFind]⟩
    · obtain ⟨r0, hr0⟩ := hq
      refine ⟨r0, ?_⟩
      simp only [assocFind]
      rw [if_neg (fun hh => hqa hh.symm), assocFind_assocErase_ne hqa, hr0]
  refine
    { pages_ne := by rw [hpages]; exact hWF1.pages_ne
      pages_id_lt := by rw [hpages, hnum]; exact hWF1.pages_id_lt
      pages_nodup := by rw [hpages]; exact hWF1.pages_nodup
      pages_used_le := by rw [hpages]; exact hWF1.pages_used_le
      pages_used_mod := by rw [hpages]; exact hWF1.pages_used_mod
      records_ok := ?_
      known_ok := ?_
      reclaimed_ok := by
        rw [hpages, hreclaimed]
        exact hWF1.reclaimed_ok }
  · intro e he
    rw [hrecords] at he
    rw [hpages]
    rcases List.mem_cons.mp he with h2 | h2
    · subst h2
      exact hAddr
    · exact hWF1.records_ok e (mem_assocErase h2)
  · intro j e he
    rw [hknown] at he
    rw [hrecords]
    have he' : e ∈
        if j = c.absolute_stack_id % kKnownStacksSharding then
          (c.absolute_stack_id, addr) :: s1.known_stacks j
        else s1.known_stacks j := he
    by_cases hj : j = c.absolute_stack_id % kKnownStacksSharding
    · rw [if_pos hj] at he'
      rcases List.mem_cons.mp he' with h2 | h2
      · subst h2
        exact ⟨⟨c.absolute_stack_id, c.frames, 1⟩, by simp [assocFind]⟩
      · exact hfindnew e.2 (hWF1.known_ok j e h2)
    · rw [if_neg hj] at he'
      exact hfindnew e.2 (hWF1.known_ok j e he')

/-- `SaveStackTrace` preserves the structural invariant. -/
theorem wf_save (s : CacheState) (c : StackCapture) (hWF : WF s) :
    WF (saveStackTrace s c).2 := by
  unfold saveStackTrace
  cases hfind : assocFind c.absolute_stack_id
      (s.known_stacks (c.absolute_stack_id % kKnownStacksSharding)) with
  | some addr =>
    exact wf_records_update s addr
      (fun r => { r with ref_count := satAddRef r.ref_count })
      (fun v => rfl) hWF _ rfl rfl rfl rfl rfl
  | none =>
    cases hget : getStackCapture s c.frames.length with
    | none => exact hWF
    | some pr =>
      obtain ⟨addr, s1⟩ := pr
      exact wf_miss_insert s s1 c addr hget hWF _ rfl rfl rfl rfl rfl

/-- `ReleaseStackTrace` preserves the structural invariant. -/
theorem wf_release (s : CacheState) (p : Addr) (hWF : WF s) :
    WF (releaseStackTrace s p) := by
  unfold releaseStackTrace
  split
  · exact hWF
  · split
    · exact hWF
    · next r hfind =>
      split
      · exact hWF
      · split
        · exact wf_zero_release s p r hfind hWF _ rfl rfl rfl rfl rfl
        · exact wf_records_update s p
            (fun r0 => { r0 with ref_count := r.ref_count - 1 })
            (fun v => rfl) hWF _ rfl rfl rfl rfl rfl

/-- The structural invariant holds after any operation sequence from any
well-formed start state. -/
theorem wf_runOps (s : CacheState) (ops : List CacheOp) (hWF : WF s) :
    WF (runOps s ops) := by
  induction ops generalizing s with
  | nil => exact hWF
  | cons op rest ih =>
    have hstep : WF (stepOp s op) := by
      cases op with
      | save c => exact wf_save s c hWF
      | release p => exact wf_release s p hWF
    exact ih (stepOp s op) hstep
/-- A hit or a miss of `SaveStackTrace` leaves a saturated, off-free-list
record untouched: still present at its address, still saturated, still
not on any free list. -/
theorem pinned_save (s : CacheState) (c : StackCapture) (p : Addr)
    (r : StackCapture) (hWF : WF s)
    (hrec : assocFind p s.records = some r)
    (hsat : r.ref_count = kMaxRefCount)
    (hfree : ∀ k, p ∉ s.reclaimed k) :
    ∃ r', assocFind p (saveStackTrace s c).2.records = some r' ∧
      r'.ref_count = kMaxRefCount ∧
      ∀ k, p ∉ (saveStackTrace s c).2.reclaimed k := by
  unfold saveStackTrace
  cases hfind : assocFind c.absolute_stack_id
      (s.known_stacks (c.absolute_stack_id % kKnownStacksSharding)) with
  | some addr =>
    by_cases hpa : p = addr
    · subst hpa
      refine ⟨{ r with ref_count := satAddRef r.ref_count }, ?_, ?_, hfree⟩
      · show assocFind p (assocUpdate p
          (fun r0 => { r0 with ref_count := satAddRef r0.ref_count })
          s.records) = _
        rw [assocFind_assocUpdate_self, hrec]
        rfl
      · show satAddRef r.ref_count = kMaxRefCount
        rw [hsat]
        simp [satAddRef]
    · refine ⟨r, ?_, hsat, hfree⟩
      show assocFind p (assocUpdate addr
        (fun r0 => { r0 with ref_count := satAddRef r0.ref_count })
        s.records) = some r
      rw [assocFind_assocUpdate_ne hpa]
      exact hrec
  | none =>
    cases hget : getStackCapture s c.frames.length with
    | none => exact ⟨r, hrec, hsat, hfree⟩
    | some pr =>
      obtain ⟨addr, s1⟩ := pr
      obtain ⟨hWF1, hAddr, hExt, hknown1, hrecords1, hrecl1, hdist⟩ :=
        getStackCapture_spec hWF hget
      have hne : addr ≠ p := hdist p r hrec hfree
      refine ⟨r, ?_, hsat, ?_⟩
      · show assocFind p
          ((addr, (⟨c.absolute_stack_id, c.frames, 1⟩ : StackCapture)) ::
            assocErase addr s1.records) = some r
        simp only [assocFind]
        rw [if_neg hne, assocFind_assocErase_ne (fun hh => hne hh.symm),
          hrecords1]
        exact hrec
      · intro k
        show p ∉ s1.reclaimed k
        intro hmem
        exact hfree k (hrecl1 k p hmem)

/-- A release of any pointer leaves a saturated, off-free-list record
untouched. -/
theorem pinned_release (s : CacheState) (q p : Addr) (r : StackCapture)
    (_hWF : WF s) (hrec : assocFind p s.records = some r)
    (hsat : r.ref_count = kMaxRefCount)
    (hfree : ∀ k, p ∉ s.reclaimed k) :
    ∃ r', assocFind p (releaseStackTrace s q).records = some r' ∧
      r'.ref_count = kMaxRefCount ∧
      ∀ k, p ∉ (releaseStackTrace s q).reclaimed k := by
  unfold releaseStackTrace
  split
  · exact ⟨r, hrec, hsat, hfree⟩
  · split
    · exact ⟨r, hrec, hsat, hfree⟩
    · next rq hfindq =>
      split
      · exact ⟨r, hrec, hsat, hfree⟩
      · next hsatq =>
        have hqp : q ≠ p := by
          intro hh
          rw [hh, hrec] at hfindq
          injection hfindq with hh2
          exact hsatq (hh2 ▸ hsat)
        split
        · refine ⟨r, ?_, hsat, ?_⟩
          · show assocFind p (assocUpdate q
              (fun r0 => { r0 with ref_count := 0 }) s.records) = some r
            rw [assocFind_assocUpdate_ne (fun hh => hqp hh.symm)]
            exact hrec
          · intro k
            show p ∉ reclaimedPush s.reclaimed rq.frames.length q k
            have hout : p ∉
                if k = rq.frames.length then
                  q :: s.reclaimed rq.frames.length
                else s.reclaimed k := by
              by_cases hk : k = rq.frames.length
              · rw [if_pos hk]
                intro hmem
                rcases List.mem_cons.mp hmem with h2 | h2
                · exact hqp h2.symm
                · exact hfree _ h2
              · rw [if_neg hk]
                exact hfree k
            exact hout
        · refine ⟨r, ?_, hsat, hfree⟩
          show assocFind p (assocUpdate q
            (fun r0 => { r0 with ref_count := rq.ref_count - 1 })
            s.records) = some r
          rw [assocFind_assocUpdate_ne (fun hh => hqp hh.symm)]
          exact hrec

/-- **C2.** Once a stored record's reference count has reached the
saturation sentinel, it never decreases again: under any further
sequence of intern/release operations the record stays at its address
with a saturated count, is never removed, and is never placed on a free
list — it is permanently pinned. -/
theorem saturated_record_pinned (s : CacheState) (p : Addr)
    (r : StackCapture) (ops : List CacheOp) (hWF : WF s)
    (hrec : assocFind p s.records = some r)
    (hsat : r.ref_count = kMaxRefCount)
    (hfree : ∀ k, p ∉ s.reclaimed k) :
    ∃ r', assocFind p (runOps s ops).records = some r' ∧
      r'.ref_count = kMaxRefCount ∧
      ∀ k, p ∉ (runOps s ops).reclaimed k := by
  induction ops generalizing s r with
  | nil => exact ⟨r, hrec, hsat, hfree⟩
  | cons op rest ih =>
    have hWF' : WF (stepOp s op) := by
      cases op with
      | save c => exact wf_save s c hWF
      | release q => exact wf_release s q hWF
    have hstep : ∃ r1, assocFind p (stepOp s op).records = some r1 ∧
        r1.ref_count = kMaxRefCount ∧
        ∀ k, p ∉ (stepOp s op).reclaimed k := by
      cases op with
      | save c => exact pinned_save s c p r hWF hrec hsat hfree
      | release q => exact pinned_release s q p r hWF hrec hsat hfree
    obtain ⟨r1, hrec1, hsat1, hfree1⟩ := hstep
    exact ih (stepOp s op) r1 hWF' hrec1 hsat1 hfree1

theorem saturatedState_wf : WF saturatedState := by
  refine ⟨?_, ?_, ?_, ?_, ?_, ?_, ?_, ?_⟩
  · simp [saturatedState]
  · intro pg hpg
    rw [show saturatedState.pages = [⟨0, 32, fun _ => 0⟩] from rfl,
      List.mem_singleton] at hpg
    subst hpg
    exact Nat.zero_lt_one
  · simp [saturatedState]
  · intro pg hpg
    rw [show saturatedState.pages = [⟨0, 32, fun _ => 0⟩] from rfl,
      List.mem_singleton] at hpg
    subst hpg
    show 32 ≤ kDataSize
    decide
  · intro pg hpg
    rw [show saturatedState.pages = [⟨0, 32, fun _ => 0⟩] from rfl,
      List.mem_singleton] at hpg
    subst hpg
    rfl
  · intro e he
    rw [show saturatedState.records =
      [(((0, 0) : Addr), ⟨17, [1, 2, 3], kMaxRefCount⟩)] from rfl,
      List.mem_singleton] at he
    subst he
    exact ⟨⟨0, 32, fun _ => 0⟩, List.mem_singleton.mpr rfl, rfl, by decide,
      by decide⟩
  · intro j e he
    have he2 : e ∈ if j = 1 then [(17, ((0, 0) : Addr))] else [] := he
    by_cases hj : j = 1
    · rw [if_pos hj, List.mem_singleton] at he2
      subst he2
      exact ⟨⟨17, [1, 2, 3], kMaxRefCount⟩, by decide⟩
    · rw [if_neg hj] at he2
      exact absurd he2 (List.not_mem_nil e)
  · intro k a ha
    exact absurd ha (List.not_mem_nil a)

/-- Closed witness for `saturated_record_pinned`: in `saturatedState`,
after a further release of the pinned record and an intern of a fresh
3-frame trace, the record is still present, still saturated, and still
off every free list. -/
theorem saturated_record_pinned_witness :
    WF saturatedState ∧
    assocFind ((0, 0) : Addr) saturatedState.records =
      some ⟨17, [1, 2, 3], kMaxRefCount⟩ ∧
    (StackCapture.mk 17 [1, 2, 3] kMaxRefCount).ref_count = kMaxRefCount ∧
    (∀ k, ((0, 0) : Addr) ∉ saturatedState.reclaimed k) ∧
    (∃ r', assocFind ((0, 0) : Addr)
        (runOps saturatedState
          [CacheOp.release (0, 0), CacheOp.save ⟨23, [9, 9, 9], 0⟩]).records
        = some r' ∧
      r'.ref_count = kMaxRefCount ∧
      ∀ k, ((0, 0) : Addr) ∉
        CacheState.reclaimed
          (runOps saturatedState
            [CacheOp.release (0, 0), CacheOp.save ⟨23, [9, 9, 9], 0⟩])
          k) :=
  ⟨saturatedState_wf, by decide, by decide,
   fun k => List.not_mem_nil _,
   saturated_record_pinned saturatedState (0, 0) ⟨17, [1, 2, 3], kMaxRefCount⟩
     [CacheOp.release (0, 0), CacheOp.save ⟨23, [9, 9, 9], 0⟩]
     saturatedState_wf (by decide) (by decide)
     (fun k => List.not_mem_nil _)⟩

/-- Every pointer handed out by a successful `SaveStackTrace` denotes a
tracked record in the resulting state. -/
theorem saveStackTrace_some_tracked (s : CacheState) (c : StackCapture)
    (a : Addr) (hWF : WF s) (hsave : (saveStackTrace s c).1 = some a) :
    ∃ r', assocFind a (saveStackTrace s c).2.records = some r' := by
  unfold saveStackTrace at hsave ⊢
  cases hfind : assocFind c.absolute_stack_id
      (s.known_stacks (c.absolute_stack_id % kKnownStacksSharding)) with
  | some addr =>
    rw [hfind] at hsave
    have hsave' : some addr = some a := hsave
    injection hsave' with haddr
    subst haddr
    obtain ⟨r, hr⟩ := hWF.known_ok
      (c.absolute_stack_id % kKnownStacksSharding)
      (c.absolute_stack_id, addr) (assocFind_mem hfind)
    have hr' : assocFind addr s.records = some r := hr
    refine ⟨{ r with ref_count := satAddRef r.ref_count }, ?_⟩
    show assocFind addr (assocUpdate addr
      (fun r0 => { r0 with ref_count := satAddRef r0.ref_count })
      s.records) = _
    rw [assocFind_assocUpdate_self, hr']
    rfl
  | none =>
    rw [hfind] at hsave
    cases hget : getStackCapture s c.frames.length with
    | none =>
      rw [hget] at hsave
      have hsave' : (none : Option Addr) = some a := hsave
      simp at hsave'
    | some pr =>
      obtain ⟨addr, s1⟩ := pr
      rw [hget] at hsave
      have hsave' : some addr = some a := hsave
      injection hsave' with haddr
      subst haddr
      refine ⟨⟨c.absolute_stack_id, c.frames, 1⟩, ?_⟩
      show assocFind addr
        ((addr, (⟨c.absolute_stack_id, c.frames, 1⟩ : StackCapture)) ::
          assocErase addr s1.records) = _
      simp [assocFind]

/-- **C5.** `StackCapturePointerIsValid` returns true for every pointer
returned by a successful `SaveStackTrace` on any reachable cache state,
and returns false for every address that does not lie, record-aligned
with room for a record, inside the data region of some page of the
cache's page chain. -/
theorem pointer_validity_spec (maxFrames : Nat) (ops : List CacheOp)
    (c : StackCapture) (a : Addr) (s' : CacheState) (q : Addr)
    (hsave : (saveStackTrace (runOps (initCache maxFrames) ops) c).1 =
      some a)
    (hforeign : ¬ ∃ pg ∈ s'.pages, pg.pageId = q.1 ∧
      q.2 % kPointerSize = 0 ∧ q.2 + stackCaptureSize 0 ≤ kDataSize) :
    stackCapturePointerIsValid
      (saveStackTrace (runOps (initCache maxFrames) ops) c).2 a = true ∧
    stackCapturePointerIsValid s' q = false := by
  constructor
  · have hWF : WF (runOps (initCache maxFrames) ops) :=
      wf_runOps _ _ (wf_initCache maxFrames)
    have hWFpost : WF (saveStackTrace (runOps (initCache maxFrames) ops)
        c).2 := wf_save _ c hWF
    obtain ⟨r', hr'⟩ := saveStackTrace_some_tracked _ c a hWF hsave
    have hin := hWFpost.records_ok (a, r') (assocFind_mem hr')
    exact addrInPages_valid hWFpost.pages_used_le
      (stackCaptureSize_zero_le r'.frames.length) hin
  · by_contra hne
    have htrue : stackCapturePointerIsValid s' q = true := by
      revert hne
      cases stackCapturePointerIsValid s' q <;> simp
    unfold stackCapturePointerIsValid at htrue
    rw [List.any_eq_true] at htrue
    obtain ⟨pg, hpg, hb⟩ := htrue
    simp only [Bool.and_eq_true, beq_iff_eq, decide_eq_true_eq] at hb
    obtain ⟨⟨h1, h2⟩, h3⟩ := hb
    exact hforeign ⟨pg, hpg, h1, h2, h3⟩

/-- Closed witness for `pointer_validity_spec`: the pointer handed out by
the first intern on a fresh cache validates; the address `(5, 0)`, naming
a page that does not exist, does not. -/
theorem pointer_validity_spec_witness :
    (saveStackTrace (runOps (initCache 62) []) ⟨17, [10, 11, 12], 0⟩).1 =
      some (0, 0) ∧
    (¬ ∃ pg ∈ (initCache 62).pages, pg.pageId = ((5, 0) : Addr).1 ∧
      ((5, 0) : Addr).2 % kPointerSize = 0 ∧
      ((5, 0) : Addr).2 + stackCaptureSize 0 ≤ kDataSize) ∧
    (stackCapturePointerIsValid
      (saveStackTrace (runOps (initCache 62) []) ⟨17, [10, 11, 12], 0⟩).2
      (0, 0) = true ∧
    stackCapturePointerIsValid (initCache 62) (5, 0) = false) :=
  ⟨by decide, by decide,
   pointer_validity_spec 62 [] ⟨17, [10, 11, 12], 0⟩ (0, 0) (initCache 62)
     (5, 0) (by decide) (by decide)⟩

end StackCaptureCache
